import Mathlib

/-!
Shallow embedding, in Lean 4, of the numerical toolkit of this repository:
the 1-D LOESS primitive `loess_1d`, the seasonal-trend decomposer
`SimpleSTL` (STL), and the Gaussian kernel ridge regressor
`SimpleRBFKernelRegression`.

Modelling conventions:
* exact arithmetic over `ℚ` replaces floating point for the LOESS/STL code,
  so every definition there is executable; kernel values of the RBF
  regressor live in `ℝ` because they pass through `Real.exp`;
* numpy arrays become `List ℚ` (LOESS/STL) or functions `Fin n → ℚ`
  (matrices of the kernel regressor);
* `np.linalg.solve` raising `LinAlgError` on an exactly singular system is
  modelled as a test `det = 0`; the Moore-Penrose fallback `np.linalg.pinv`
  is modelled by the four Penrose equations (which characterise it
  uniquely);
* `np.argsort` (an unspecified-tie comparison sort) is modelled with the
  structurally recursive `List.insertionSort`, which sorts by the same key;
* Python `None` defaults become `Option.none`, object mutation becomes a
  returned updated record, and the `RuntimeError` of an untrained
  `predict` becomes `Except.error`.
-/

/-- The `1e-9` degeneracy threshold used by `loess_1d`. -/
def loessEps : ℚ := 1 / 1000000000

/-- `np.argsort l`: the indices `0 .. l.length - 1` sorted by the value
they index in `l`. -/
def argsort (l : List ℚ) : List ℕ :=
  List.insertionSort (fun i j => l.getD i 0 ≤ l.getD j 0) (List.range l.length)

/-- The window size of `loess_1d`:
`num_points_in_window = int(np.ceil(bandwidth * n))`, raised to at least 2,
then capped at `n` (in that order, exactly as in the source). -/
def numPointsInWindow (n : ℕ) (bandwidth : ℚ) : ℕ :=
  let w0 : ℤ := ⌈bandwidth * (n : ℚ)⌉
  let w1 : ℤ := if w0 < 2 then 2 else w0
  (if w1 > (n : ℤ) then (n : ℤ) else w1).toNat

/-- The absolute distances `np.abs(x_sorted - p)` from each observation to
the query point `p`. -/
def loessDists (xs : List ℚ) (p : ℚ) : List ℚ :=
  xs.map (fun xi => |xi - p|)

/-- `nearest_indices = np.argsort(distances)[:num_points_in_window]`:
the indices of the `w` observations closest to the query point. -/
def loessNearest (xs : List ℚ) (w : ℕ) (p : ℚ) : List ℕ :=
  (argsort (loessDists xs p)).take w

/-- `x_window`: the x-coordinates of the selected window. -/
def loessXw (xs : List ℚ) (w : ℕ) (p : ℚ) : List ℚ :=
  (loessNearest xs w p).map (fun i => xs.getD i 0)

/-- `y_window`: the y-values of the selected window. -/
def loessYw (xs ys : List ℚ) (w : ℕ) (p : ℚ) : List ℚ :=
  (loessNearest xs w p).map (fun i => ys.getD i 0)

/-- `dist_window`: the distances of the selected window. -/
def loessDw (xs : List ℚ) (w : ℕ) (p : ℚ) : List ℚ :=
  (loessNearest xs w p).map (fun i => (loessDists xs p).getD i 0)

/-- Tricube weights of a window: uniform weight 1 when the largest distance
is below `1e-9`, else `(1 - (d / max)^3)^3` per point. -/
def tricubeWeights (dw : List ℚ) : List ℚ :=
  let maxDist := dw.foldr max 0
  if maxDist < loessEps then List.replicate dw.length 1
  else dw.map (fun d0 => (1 - (d0 / maxDist) ^ 3) ^ 3)

/-- The window weights used by `loess_1d` at one query point. -/
def loessWeights (xs : List ℚ) (w : ℕ) (p : ℚ) : List ℚ :=
  tricubeWeights (loessDw xs w p)

/-- `np.sum(weights)`: the `(1,1)` entry of the weighted normal matrix. -/
def loessSw (xs : List ℚ) (w : ℕ) (p : ℚ) : ℚ :=
  (loessWeights xs w p).sum

/-- `Σ weight·x`: the off-diagonal entry of the weighted normal matrix. -/
def loessSwx (xs : List ℚ) (w : ℕ) (p : ℚ) : ℚ :=
  (List.zipWith (· * ·) (loessWeights xs w p) (loessXw xs w p)).sum

/-- `Σ weight·x²`: the `(2,2)` entry of the weighted normal matrix. -/
def loessSwx2 (xs : List ℚ) (w : ℕ) (p : ℚ) : ℚ :=
  (List.zipWith (· * ·) (loessWeights xs w p) ((loessXw xs w p).map (· ^ 2))).sum

/-- `Σ weight·y`: the first entry of the weighted right-hand side. -/
def loessSwy (xs ys : List ℚ) (w : ℕ) (p : ℚ) : ℚ :=
  (List.zipWith (· * ·) (loessWeights xs w p) (loessYw xs ys w p)).sum

/-- `Σ weight·x·y`: the second entry of the weighted right-hand side. -/
def loessSwxy (xs ys : List ℚ) (w : ℕ) (p : ℚ) : ℚ :=
  (List.zipWith (· * ·) (List.zipWith (· * ·) (loessWeights xs w p) (loessXw xs w p))
    (loessYw xs ys w p)).sum

/-- The determinant of the 2×2 weighted normal-equations matrix
`XᵗWX = [[Σw, Σwx], [Σwx, Σwx²]]`. -/
def loessDet (xs : List ℚ) (w : ℕ) (p : ℚ) : ℚ :=
  loessSw xs w p * loessSwx2 xs w p - loessSwx xs w p * loessSwx xs w p

/-- `np.mean` of a list of rationals. -/
def listMean (l : List ℚ) : ℚ := l.sum / (l.length : ℚ)

/-- The coefficients `(a, b)` of the local weighted linear fit
`y = a + b·x` at one query point: the unique solution of the normal
equations when `XᵗWX` is nonsingular (`np.linalg.solve`), otherwise the
fallback of the source: the weighted mean with zero slope, or the
unweighted window mean with zero slope when the weight sum is below
`1e-9`. -/
def loessAB (xs ys : List ℚ) (w : ℕ) (p : ℚ) : ℚ × ℚ :=
  if loessDet xs w p ≠ 0 then
    ((loessSwy xs ys w p * loessSwx2 xs w p - loessSwx xs w p * loessSwxy xs ys w p) /
        loessDet xs w p,
      (loessSw xs w p * loessSwxy xs ys w p - loessSwx xs w p * loessSwy xs ys w p) /
        loessDet xs w p)
  else if loessSw xs w p < loessEps then (listMean (loessYw xs ys w p), 0)
  else (loessSwy xs ys w p / loessSw xs w p, 0)

/-- `estimated_points[i] = a + b * p`: the LOESS estimate at one query
point. -/
def loessPoint (xs ys : List ℚ) (w : ℕ) (p : ℚ) : ℚ :=
  (loessAB xs ys w p).1 + (loessAB xs ys w p).2 * p

/-- `loess_1d(y, x, points, bandwidth)`: simplified 1-D LOESS. Returns the
all-zero list when there are no observations; otherwise sorts the
observations by `x` and evaluates the local weighted linear fit at every
query point. -/
def loess_1d (y x points : List ℚ) (bandwidth : ℚ) : List ℚ :=
  let n := x.length
  if n = 0 then List.replicate points.length 0
  else
    let sortIndices := argsort x
    let xSorted := sortIndices.map (fun i => x.getD i 0)
    let ySorted := sortIndices.map (fun i => y.getD i 0)
    let w := numPointsInWindow n bandwidth
    points.map (fun p => loessPoint xSorted ySorted w p)

/-- `np.arange(i, n, step)` for natural bounds and a positive step. -/
def arange (i n step : ℕ) : List ℕ :=
  (List.range n).filter (fun t => i ≤ t && (t - i) % step = 0)

/-- Writing the values `vals` back into `base` at the positions `idxs`
(`seasonal_smoothed[period_indices] = smoothed_values`). -/
def scatter (base : List ℚ) (idxs : List ℕ) (vals : List ℚ) : List ℚ :=
  (idxs.zip vals).foldl (fun acc iv => acc.set iv.1 iv.2) base

/-- The robustness weights of one outer STL pass: `np.ones(n)` — always
uniform, never updated, in this simplified implementation. -/
def robustnessWeights (n : ℕ) : List ℚ := List.replicate n 1

/-- One inner STL pass (steps 1-7 of the source): de-trend, smooth each
cycle-subseries with LOESS, remove the leaked trend of the smoothed
seasonal signal, re-estimate the trend from the de-seasonalised series,
and recompute the residual. The state is `(seasonal, trend, residual)`. -/
def stlInnerPass (data times : List ℚ) (period n : ℕ) (sspan tspan : ℚ)
    (st : List ℚ × List ℚ × List ℚ) : List ℚ × List ℚ × List ℚ :=
  let deseasonalized := List.zipWith (· - ·) data st.2.1
  let seasonalSmoothed := (List.range period).foldl (fun acc i =>
      let periodIndices := arange i n period
      if periodIndices.length > 0 then
        let periodTimes := periodIndices.map (fun t => times.getD t 0)
        let periodValues := periodIndices.map (fun t => deseasonalized.getD t 0)
        let smoothedValues := loess_1d periodValues periodTimes periodTimes sspan
        scatter acc periodIndices smoothedValues
      else acc) (List.replicate n 0)
  let seasonalTrend := loess_1d seasonalSmoothed times times tspan
  let seasonal := List.zipWith (· - ·) seasonalSmoothed seasonalTrend
  let detrended := List.zipWith (· - ·) data seasonal
  let trend := loess_1d detrended times times tspan
  let residual := List.zipWith (· - ·) (List.zipWith (· - ·) data seasonal) trend
  (seasonal, trend, residual)

/-- One outer STL pass: initialise the (unused) robustness weights to all
ones, then run `n_inner_iterations` inner passes. -/
def stlOuterPass (data times : List ℚ) (period n : ℕ) (sspan tspan : ℚ)
    (nInner : ℕ) (st : List ℚ × List ℚ × List ℚ) : List ℚ × List ℚ × List ℚ :=
  let _robustness_weights := robustnessWeights n
  (stlInnerPass data times period n sspan tspan)^[nInner] st

/-- The full iteration of `SimpleSTL.fit` on a nonempty series: starting
from all-zero seasonal and trend and `residual = data`, run
`n_outer_iterations + 1` outer passes. -/
def stlDecompose (data : List ℚ) (period : ℕ) (sspan tspan : ℚ)
    (nInner nOuter : ℕ) : List ℚ × List ℚ × List ℚ :=
  let n := data.length
  let times := (List.range n).map (fun t => ((t : ℕ) : ℚ))
  (stlOuterPass data times period n sspan tspan nInner)^[nOuter + 1]
    (List.replicate n 0, List.replicate n 0, data)

/-- Nearest odd integer at least `v`, raised to at least 3: the shape of
both default bandwidth computations of `SimpleSTL.fit`. -/
def oddAtLeast3 (v : ℤ) : ℤ :=
  let v1 := if v % 2 = 0 then v + 1 else v
  if v1 < 3 then 3 else v1

/-- The `SimpleSTL` instance: constructor configuration plus the mutable
result fields populated by `fit` (Python `None` is `Option.none`). -/
structure SimpleSTL where
  seasonal_period : ℕ
  n_trend_bandwidth : Option ℤ := none
  n_lowpass_bandwidth : Option ℤ := none
  seasonal_smoother_span : Option ℚ := none
  trend_smoother_span : Option ℚ := none
  lowpass_smoother_span : Option ℚ := none
  n_inner_iterations : ℕ := 2
  n_outer_iterations : ℕ := 0
  seasonal : Option (List ℚ) := none
  trend : Option (List ℚ) := none
  residual : Option (List ℚ) := none

/-- The seasonal span actually used by `fit` on a series of length `n`:
the stored value, or the default `7 / n`. -/
def SimpleSTL.effSeasonalSpan (self : SimpleSTL) (n : ℕ) : ℚ :=
  self.seasonal_smoother_span.getD (7 / (n : ℚ))

/-- The trend bandwidth actually used by `fit`: the stored value, or the
nearest odd integer ≥ `1.5 * seasonal_period`, at least 3. -/
def SimpleSTL.effTrendBandwidth (self : SimpleSTL) : ℤ :=
  self.n_trend_bandwidth.getD (oddAtLeast3 ⌈(3 : ℚ) / 2 * (self.seasonal_period : ℚ)⌉)

/-- The low-pass bandwidth actually computed by `fit`: the stored value, or
the nearest odd integer ≥ `seasonal_period`, at least 3. -/
def SimpleSTL.effLowpassBandwidth (self : SimpleSTL) : ℤ :=
  self.n_lowpass_bandwidth.getD (oddAtLeast3 ⌈(self.seasonal_period : ℚ)⌉)

/-- The trend span actually used by `fit` on a series of length `n`. -/
def SimpleSTL.effTrendSpan (self : SimpleSTL) (n : ℕ) : ℚ :=
  self.trend_smoother_span.getD ((self.effTrendBandwidth : ℚ) / (n : ℚ))

/-- The low-pass span computed and stored by `fit` on a series of length
`n` (never used by the decomposition itself). -/
def SimpleSTL.effLowpassSpan (self : SimpleSTL) (n : ℕ) : ℚ :=
  self.lowpass_smoother_span.getD ((self.effLowpassBandwidth : ℚ) / (n : ℚ))

/-- `SimpleSTL.fit`: on an empty series, set the three components to empty
and return early; otherwise fill in every unset smoothing parameter
(`seasonal_smoother_span = 7/n`; bandwidths = nearest odd integer ≥
`1.5·period` resp. `period`, at least 3; spans = bandwidth `/ n`), run the
outer/inner iteration, and store the resulting components. The updated
instance is returned (the source mutates `self` in place). -/
def SimpleSTL.fit (self : SimpleSTL) (data : List ℚ) : SimpleSTL :=
  if data.length = 0 then
    { self with seasonal := some [], trend := some [], residual := some [] }
  else
    let result := stlDecompose data self.seasonal_period
      (self.effSeasonalSpan data.length) (self.effTrendSpan data.length)
      self.n_inner_iterations self.n_outer_iterations
    { self with
      seasonal_smoother_span := some (self.effSeasonalSpan data.length)
      n_trend_bandwidth := some self.effTrendBandwidth
      n_lowpass_bandwidth := some self.effLowpassBandwidth
      trend_smoother_span := some (self.effTrendSpan data.length)
      lowpass_smoother_span := some (self.effLowpassSpan data.length)
      seasonal := some result.1
      trend := some result.2.1
      residual := some result.2.2 }

/-- `get_components`: the three decomposed components. -/
def SimpleSTL.get_components (self : SimpleSTL) :
    Option (List ℚ) × Option (List ℚ) × Option (List ℚ) :=
  (self.seasonal, self.trend, self.residual)

/-- `np.sum(v**2)` of one feature vector. -/
def sqNorm {d : ℕ} (v : Fin d → ℚ) : ℚ := ∑ k, v k ^ 2

/-- The dot product `x_i · x_j` of two feature vectors. -/
def dotProd {d : ℕ} (u v : Fin d → ℚ) : ℚ := ∑ k, u k * v k

/-- The pairwise squared distances of the matrix branch of `_rbf_kernel`,
computed by the expansion `‖x_i‖² + ‖x_j‖² − 2·x_i·x_j`. -/
def rawSqDist {m1 m2 d : ℕ} (x1 : Fin m1 → Fin d → ℚ) (x2 : Fin m2 → Fin d → ℚ)
    (i : Fin m1) (j : Fin m2) : ℚ :=
  sqNorm (x1 i) + sqNorm (x2 j) - 2 * dotProd (x1 i) (x2 j)

/-- The squared distances with negative entries (rounding artifacts in the
source) clamped to zero: `sq_dists[sq_dists < 0] = 0`. -/
def clampSqDist {m1 m2 d : ℕ} (x1 : Fin m1 → Fin d → ℚ) (x2 : Fin m2 → Fin d → ℚ)
    (i : Fin m1) (j : Fin m2) : ℚ :=
  if rawSqDist x1 x2 i j < 0 then 0 else rawSqDist x1 x2 i j

/-- `gamma = 1 / (2 * sigma**2)`. -/
def gammaOf (sigma : ℚ) : ℚ := 1 / (2 * sigma ^ 2)

/-- The matrix branch of `SimpleRBFKernelRegression._rbf_kernel`: the full
pairwise Gaussian kernel matrix `exp(-gamma * sq_dists)` of two stacks of
feature vectors. -/
noncomputable def rbfKernelMatrix {m1 m2 d : ℕ} (sigma : ℚ)
    (x1 : Fin m1 → Fin d → ℚ) (x2 : Fin m2 → Fin d → ℚ) :
    Matrix (Fin m1) (Fin m2) ℝ :=
  Matrix.of fun i j => Real.exp (-(gammaOf sigma : ℝ) * (clampSqDist x1 x2 i j : ℝ))

/-- The four Penrose equations over `ℝ` (real transpose as adjoint); they
characterise the Moore-Penrose pseudo-inverse `np.linalg.pinv` uniquely. -/
def IsMoorePenrose {n : ℕ} (A B : Matrix (Fin n) (Fin n) ℝ) : Prop :=
  A * B * A = A ∧ B * A * B = B ∧ (A * B).transpose = A * B ∧
    (B * A).transpose = B * A

open Classical in
/-- `np.linalg.pinv` modelled by its defining property: the matrix
satisfying the Penrose equations when one exists. -/
noncomputable def pinvR {n : ℕ} (A : Matrix (Fin n) (Fin n) ℝ) :
    Matrix (Fin n) (Fin n) ℝ :=
  if h : ∃ B, IsMoorePenrose A B then h.choose else 0

/-- The dual coefficients of `predict`: solve
`(K_train_train + lambda_reg·I) · alpha = y_train`, falling back to the
pseudo-inverse when the system is exactly singular. -/
noncomputable def krrAlpha {n : ℕ} (lambda_reg : ℚ)
    (Ktt : Matrix (Fin n) (Fin n) ℝ) (y : Fin n → ℚ) : Fin n → ℝ :=
  let A := Ktt + (lambda_reg : ℝ) • (1 : Matrix (Fin n) (Fin n) ℝ)
  if A.det ≠ 0 then A⁻¹.mulVec (fun i => (y i : ℝ))
  else (pinvR A).mulVec (fun i => (y i : ℝ))

/-- The prediction vector of `SimpleRBFKernelRegression.predict` for a
trained model: all zeros for an empty training set, else
`K_test_train · alpha`. -/
noncomputable def krrPredictVec {n d mt : ℕ} (sigma lambda_reg : ℚ)
    (Xtr : Fin n → Fin d → ℚ) (ytr : Fin n → ℚ)
    (Xte : Fin mt → Fin d → ℚ) : Fin mt → ℝ :=
  if n = 0 then fun _ => 0
  else (rbfKernelMatrix sigma Xte Xtr).mulVec
    (krrAlpha lambda_reg (rbfKernelMatrix sigma Xtr Xtr) ytr)

/-- The error raised by `predict` before `fit`
(`RuntimeError("Модель не обучена...")`). -/
inductive KRRError where
  | notTrained
deriving DecidableEq

/-- The `SimpleRBFKernelRegression` instance: hyperparameters plus the
stored training set. `training = none` models the freshly constructed
state (`X_train is None`, `_trained == False`); `fit` is the only method
that sets it. -/
structure SimpleRBFKernelRegression (d : ℕ) where
  sigma : ℚ
  lambda_reg : ℚ
  training : Option ((n : ℕ) × ((Fin n → Fin d → ℚ) × (Fin n → ℚ))) := none

/-- `__init__(sigma, lambda_reg)`: a fresh, untrained model. -/
def SimpleRBFKernelRegression.make (d : ℕ) (sigma lambda_reg : ℚ) :
    SimpleRBFKernelRegression d :=
  { sigma := sigma, lambda_reg := lambda_reg, training := none }

/-- `fit(X, y)`: store the training data and mark the model trained. -/
def SimpleRBFKernelRegression.fit {d : ℕ} (self : SimpleRBFKernelRegression d)
    (n : ℕ) (X : Fin n → Fin d → ℚ) (y : Fin n → ℚ) :
    SimpleRBFKernelRegression d :=
  { self with training := some ⟨n, X, y⟩ }

/-- `predict(X_test)`: error when never trained, otherwise the kernel
ridge prediction vector. -/
noncomputable def SimpleRBFKernelRegression.predict {d : ℕ}
    (self : SimpleRBFKernelRegression d) {mt : ℕ} (Xte : Fin mt → Fin d → ℚ) :
    Except KRRError (Fin mt → ℝ) :=
  match self.training with
  | none => Except.error KRRError.notTrained
  | some t => Except.ok (krrPredictVec self.sigma self.lambda_reg t.2.1 t.2.2 Xte)

/-- One recorded call to `fit`: the training set passed. -/
def KRRFitCall (d : ℕ) := (n : ℕ) × ((Fin n → Fin d → ℚ) × (Fin n → ℚ))

/-- Replay a sequence of `fit` calls on a model. -/
def SimpleRBFKernelRegression.runFits {d : ℕ} (self : SimpleRBFKernelRegression d)
    (calls : List (KRRFitCall d)) : SimpleRBFKernelRegression d :=
  calls.foldl (fun m c => m.fit c.1 c.2.1 c.2.2) self


/-! ### List helper lemmas -/

lemma fold_set_length (l : List (ℕ × ℚ)) :
    ∀ base : List ℚ,
      (l.foldl (fun acc iv => acc.set iv.1 iv.2) base).length = base.length := by
  induction l with
  | nil => intro base; rfl
  | cons hd tl ih =>
      intro base
      simp only [List.foldl_cons]
      rw [ih, List.length_set]

lemma scatter_length (base : List ℚ) (idxs : List ℕ) (vals : List ℚ) :
    (scatter base idxs vals).length = base.length :=
  fold_set_length _ _

lemma foldl_length {α : Type} (g : List ℚ → α → List ℚ)
    (hg : ∀ acc a, (g acc a).length = acc.length) :
    ∀ (l : List α) (acc : List ℚ), (l.foldl g acc).length = acc.length := by
  intro l
  induction l with
  | nil => intro acc; rfl
  | cons hd tl ih =>
      intro acc
      simp only [List.foldl_cons]
      rw [ih, hg]

lemma loess_1d_length (y x points : List ℚ) (b : ℚ) :
    (loess_1d y x points b).length = points.length := by
  simp only [loess_1d]
  split
  · simp
  · simp

lemma zipWith_sub_replicate_zero (l : List ℚ) :
    ∀ n : ℕ, l.length = n → List.zipWith (· - ·) l (List.replicate n 0) = l := by
  induction l with
  | nil => intro n _; simp
  | cons hd tl ih =>
      intro n hn
      cases n with
      | zero => simp at hn
      | succ m =>
          simp only [List.replicate_succ, List.zipWith_cons_cons, sub_zero]
          rw [ih m (by simpa using hn)]

lemma additive_rebuild (d : List ℚ) :
    ∀ s t : List ℚ, s.length = d.length → t.length = d.length →
      List.zipWith (· + ·) (List.zipWith (· + ·) s t)
        (List.zipWith (· - ·) (List.zipWith (· - ·) d s) t) = d := by
  induction d with
  | nil =>
      intro s t hs _
      rw [List.length_eq_zero.mp hs]
      simp
  | cons dh dt ih =>
      intro s t hs ht
      cases s with
      | nil => simp at hs
      | cons sh st =>
          cases t with
          | nil => simp at ht
          | cons th tt =>
              simp only [List.zipWith_cons_cons, List.cons.injEq]
              exact ⟨by ring, ih st tt (by simpa using hs) (by simpa using ht)⟩

/-! ### STL structure lemmas -/

lemma stlInnerPass_spec (data times : List ℚ) (period : ℕ) (sspan tspan : ℚ)
    (ht : times.length = data.length) (st : List ℚ × List ℚ × List ℚ) :
    (stlInnerPass data times period data.length sspan tspan st).1.length = data.length ∧
    (stlInnerPass data times period data.length sspan tspan st).2.1.length = data.length ∧
    (stlInnerPass data times period data.length sspan tspan st).2.2 =
      List.zipWith (· - ·)
        (List.zipWith (· - ·) data
          (stlInnerPass data times period data.length sspan tspan st).1)
        (stlInnerPass data times period data.length sspan tspan st).2.1 := by
  have hsm : ∀ des : List ℚ,
      ((List.range period).foldl (fun acc i =>
        let periodIndices := arange i data.length period
        if periodIndices.length > 0 then
          let periodTimes := periodIndices.map (fun t => times.getD t 0)
          let periodValues := periodIndices.map (fun t => des.getD t 0)
          let smoothedValues := loess_1d periodValues periodTimes periodTimes sspan
          scatter acc periodIndices smoothedValues
        else acc) (List.replicate data.length 0)).length = data.length := by
    intro des
    rw [foldl_length]
    · simp
    · intro acc i
      dsimp only
      split
      · exact scatter_length _ _ _
      · rfl
  simp only [stlInnerPass]
  refine ⟨?_, ?_, trivial⟩
  · rw [List.length_zipWith, hsm, loess_1d_length, ht, min_self]
  · rw [loess_1d_length, ht]

lemma stlOuterPass_eq_iterate (data times : List ℚ) (period n : ℕ)
    (sspan tspan : ℚ) (nInner : ℕ) :
    stlOuterPass data times period n sspan tspan nInner =
      (stlInnerPass data times period n sspan tspan)^[nInner] := by
  funext st
  simp [stlOuterPass]

lemma stlDecompose_eq_inner_iterate (data : List ℚ) (period : ℕ)
    (sspan tspan : ℚ) (nInner nOuter : ℕ) :
    stlDecompose data period sspan tspan nInner nOuter =
      (stlInnerPass data ((List.range data.length).map (fun t => ((t : ℕ) : ℚ)))
          period data.length sspan tspan)^[nInner * (nOuter + 1)]
        (List.replicate data.length 0, List.replicate data.length 0, data) := by
  simp only [stlDecompose]
  rw [stlOuterPass_eq_iterate, ← Function.iterate_mul]

lemma stlDecompose_spec (data : List ℚ) (period : ℕ) (sspan tspan : ℚ)
    (nInner nOuter : ℕ) :
    (stlDecompose data period sspan tspan nInner nOuter).1.length = data.length ∧
    (stlDecompose data period sspan tspan nInner nOuter).2.1.length = data.length ∧
    (stlDecompose data period sspan tspan nInner nOuter).2.2 =
      List.zipWith (· - ·)
        (List.zipWith (· - ·) data (stlDecompose data period sspan tspan nInner nOuter).1)
        (stlDecompose data period sspan tspan nInner nOuter).2.1 := by
  have ht : ((List.range data.length).map (fun t => ((t : ℕ) : ℚ))).length = data.length := by
    rw [List.length_map, List.length_range]
  rw [stlDecompose_eq_inner_iterate]
  cases hj : nInner * (nOuter + 1) with
  | zero =>
      simp only [Function.iterate_zero, id_eq]
      refine ⟨by simp, by simp, ?_⟩
      rw [zipWith_sub_replicate_zero data data.length rfl,
        zipWith_sub_replicate_zero data data.length rfl]
  | succ j =>
      rw [Function.iterate_succ_apply']
      exact stlInnerPass_spec data _ period sspan tspan ht _

lemma SimpleSTL.fit_components (self : SimpleSTL) (data : List ℚ)
    (h : ¬ data.length = 0) :
    (self.fit data).seasonal = some (stlDecompose data self.seasonal_period
      (self.effSeasonalSpan data.length) (self.effTrendSpan data.length)
      self.n_inner_iterations self.n_outer_iterations).1 ∧
    (self.fit data).trend = some (stlDecompose data self.seasonal_period
      (self.effSeasonalSpan data.length) (self.effTrendSpan data.length)
      self.n_inner_iterations self.n_outer_iterations).2.1 ∧
    (self.fit data).residual = some (stlDecompose data self.seasonal_period
      (self.effSeasonalSpan data.length) (self.effTrendSpan data.length)
      self.n_inner_iterations self.n_outer_iterations).2.2 := by
  simp only [SimpleSTL.fit]
  rw [if_neg h]
  exact ⟨rfl, rfl, rfl⟩

/-- C1. STL additive identity: after `SimpleSTL.fit` on any series with any
configuration, `seasonal[t] + trend[t] + residual[t] = data[t]` exactly at
every index (the three components have the length of the input); and with
zero inner iterations the seasonal and trend components are all zero and
the residual is the input itself. -/
theorem stl_additive_identity (self : SimpleSTL) (data : List ℚ) :
    (List.zipWith (· + ·)
        (List.zipWith (· + ·) ((self.fit data).seasonal.getD [])
          ((self.fit data).trend.getD []))
        ((self.fit data).residual.getD []) = data) ∧
    ((self.fit data).seasonal.getD []).length = data.length ∧
    ((self.fit data).trend.getD []).length = data.length ∧
    ((self.fit data).residual.getD []).length = data.length ∧
    (SimpleSTL.fit { self with n_inner_iterations := 0 } data).seasonal =
      some (List.replicate data.length 0) ∧
    (SimpleSTL.fit { self with n_inner_iterations := 0 } data).trend =
      some (List.replicate data.length 0) ∧
    (SimpleSTL.fit { self with n_inner_iterations := 0 } data).residual =
      some data := by
  have hzero :
      (SimpleSTL.fit { self with n_inner_iterations := 0 } data).seasonal =
        some (List.replicate data.length 0) ∧
      (SimpleSTL.fit { self with n_inner_iterations := 0 } data).trend =
        some (List.replicate data.length 0) ∧
      (SimpleSTL.fit { self with n_inner_iterations := 0 } data).residual =
        some data := by
    by_cases hn : data.length = 0
    · have hd : data = [] := List.length_eq_zero.mp hn
      subst hd
      simp [SimpleSTL.fit]
    · obtain ⟨h1, h2, h3⟩ :=
        SimpleSTL.fit_components { self with n_inner_iterations := 0 } data hn
      rw [h1, h2, h3, stlDecompose_eq_inner_iterate]
      simp
  by_cases hn : data.length = 0
  · have hd : data = [] := List.length_eq_zero.mp hn
    subst hd
    refine ⟨?_, ?_, ?_, ?_, hzero⟩ <;> simp [SimpleSTL.fit]
  · obtain ⟨h1, h2, h3⟩ := SimpleSTL.fit_components self data hn
    obtain ⟨l1, l2, leq⟩ := stlDecompose_spec data self.seasonal_period
      (self.effSeasonalSpan data.length) (self.effTrendSpan data.length)
      self.n_inner_iterations self.n_outer_iterations
    rw [h1, h2, h3]
    simp only [Option.getD_some]
    refine ⟨?_, l1, l2, ?_, hzero⟩
    · rw [leq]
      exact additive_rebuild data _ _ l1 l2
    · rw [leq, List.length_zipWith, List.length_zipWith, l1, l2, min_self,
        min_comm, min_self]

/-- C2. Noninterference of the low-pass parameters: two `SimpleSTL.fit`
runs that differ only in `n_lowpass_bandwidth` and/or
`lowpass_smoother_span` produce identical seasonal, trend and residual
components — those parameters are computed and stored but never influence
the decomposition. -/
theorem stl_lowpass_noninterference (self : SimpleSTL) (lb : Option ℤ)
    (ls : Option ℚ) (data : List ℚ) :
    (SimpleSTL.fit
        { self with n_lowpass_bandwidth := lb, lowpass_smoother_span := ls }
        data).seasonal = (self.fit data).seasonal ∧
    (SimpleSTL.fit
        { self with n_lowpass_bandwidth := lb, lowpass_smoother_span := ls }
        data).trend = (self.fit data).trend ∧
    (SimpleSTL.fit
        { self with n_lowpass_bandwidth := lb, lowpass_smoother_span := ls }
        data).residual = (self.fit data).residual := by
  by_cases hn : data.length = 0
  · have hd : data = [] := List.length_eq_zero.mp hn
    subst hd
    simp [SimpleSTL.fit]
  · obtain ⟨h1, h2, h3⟩ := SimpleSTL.fit_components
      { self with n_lowpass_bandwidth := lb, lowpass_smoother_span := ls } data hn
    obtain ⟨g1, g2, g3⟩ := SimpleSTL.fit_components self data hn
    rw [h1, h2, h3, g1, g2, g3]
    exact ⟨rfl, rfl, rfl⟩

/-- C3. Outer-iteration collapse: `fit` with `n_outer_iterations = k` and
`n_inner_iterations = m` produces exactly the components of
`n_outer_iterations = 0` with `n_inner_iterations = (k+1)·m` — the outer
loop only multiplies the number of identical inner passes — and the
robustness weights of a pass are 1 at every point. -/
theorem stl_outer_iteration_collapse (self : SimpleSTL) (data : List ℚ) :
    ((self.fit data).seasonal =
      (SimpleSTL.fit
        { self with
          n_outer_iterations := 0
          n_inner_iterations :=
            (self.n_outer_iterations + 1) * self.n_inner_iterations } data).seasonal ∧
    (self.fit data).trend =
      (SimpleSTL.fit
        { self with
          n_outer_iterations := 0
          n_inner_iterations :=
            (self.n_outer_iterations + 1) * self.n_inner_iterations } data).trend ∧
    (self.fit data).residual =
      (SimpleSTL.fit
        { self with
          n_outer_iterations := 0
          n_inner_iterations :=
            (self.n_outer_iterations + 1) * self.n_inner_iterations } data).residual) ∧
    ∀ q ∈ robustnessWeights data.length, q = 1 := by
  constructor
  · by_cases hn : data.length = 0
    · have hd : data = [] := List.length_eq_zero.mp hn
      subst hd
      simp [SimpleSTL.fit]
    · obtain ⟨h1, h2, h3⟩ := SimpleSTL.fit_components self data hn
      obtain ⟨g1, g2, g3⟩ := SimpleSTL.fit_components
        { self with
          n_outer_iterations := 0
          n_inner_iterations :=
            (self.n_outer_iterations + 1) * self.n_inner_iterations } data hn
      rw [h1, h2, h3, g1, g2, g3]
      have hcollapse : stlDecompose data self.seasonal_period
          (self.effSeasonalSpan data.length) (self.effTrendSpan data.length)
          self.n_inner_iterations self.n_outer_iterations =
          stlDecompose data self.seasonal_period
            (self.effSeasonalSpan data.length) (self.effTrendSpan data.length)
            ((self.n_outer_iterations + 1) * self.n_inner_iterations) 0 := by
        rw [stlDecompose_eq_inner_iterate, stlDecompose_eq_inner_iterate]
        have hm : self.n_inner_iterations * (self.n_outer_iterations + 1) =
            (self.n_outer_iterations + 1) * self.n_inner_iterations * (0 + 1) := by
          ring
        rw [hm]
      exact ⟨by rw [hcollapse]; rfl, by rw [hcollapse]; rfl, by rw [hcollapse]; rfl⟩
  · intro q hq
    exact List.eq_of_mem_replicate hq

/-! ### LOESS window size -/

lemma numPointsInWindow_eq (n : ℕ) (b : ℚ) :
    numPointsInWindow n b = (min (n : ℤ) (max 2 ⌈b * (n : ℚ)⌉)).toNat := by
  simp only [numPointsInWindow]
  generalize ⌈b * (n : ℚ)⌉ = z
  split_ifs <;> omega

lemma argsort_length (l : List ℚ) : (argsort l).length = l.length := by
  simp [argsort, List.length_insertionSort]

/-- C4 (counterexample). The claimed window-size formula
`max(2, min(n, ceil(b·n)))` fails on a single observation: with `n = 1`
and `b = 1` the code selects 1 observation while the formula demands 2
(the code raises to 2 before capping at `n`, not after). -/
theorem loess_window_size_claim_false :
    ¬ ((loessNearest [(0 : ℚ)] (numPointsInWindow 1 1) 0).length =
        (max 2 (min ((1 : ℕ) : ℤ) ⌈(1 : ℚ) * (((1 : ℕ)) : ℚ)⌉)).toNat) := by
  have hceil : ⌈(1 : ℚ) * (((1 : ℕ)) : ℚ)⌉ = 1 := by
    norm_num
  have hnum : numPointsInWindow 1 1 = 1 := by
    rw [numPointsInWindow_eq, hceil]
    rfl
  have hsel : loessNearest [(0 : ℚ)] 1 0 = [0] := by
    simp [loessNearest, loessDists, argsort, List.insertionSort, List.orderedInsert]
  rw [hnum, hsel, hceil]
  decide

/-- C4 (amended). For every nonempty observation list, bandwidth and query
point, the number of observations selected into the local window is
`min(n, max(2, ceil(b·n)))`; for `n ≥ 2` this agrees with the claimed
formula `max(2, min(n, ceil(b·n)))`. -/
theorem loess_window_size_amended (xs : List ℚ) (p b : ℚ) (h : xs ≠ []) :
    (loessNearest xs (numPointsInWindow xs.length b) p).length =
      (min (xs.length : ℤ) (max 2 ⌈b * (xs.length : ℚ)⌉)).toNat ∧
    (2 ≤ xs.length →
      (loessNearest xs (numPointsInWindow xs.length b) p).length =
        (max 2 (min (xs.length : ℤ) ⌈b * (xs.length : ℚ)⌉)).toNat) := by
  have hdlen : (loessDists xs p).length = xs.length := by
    simp [loessDists]
  have hcount : (loessNearest xs (numPointsInWindow xs.length b) p).length =
      min (numPointsInWindow xs.length b) xs.length := by
    simp [loessNearest, List.length_take, argsort_length, hdlen]
  have h1 : 0 < xs.length := List.length_pos.mpr h
  rw [hcount, numPointsInWindow_eq]
  constructor
  · omega
  · intro h2
    omega

/-- C4 (witness for the amended claim): two observations, full bandwidth,
both formulas give a window of 2. -/
theorem loess_window_size_witness :
    (loessNearest [(0 : ℚ), 1] (numPointsInWindow ([(0 : ℚ), 1]).length 1) 0).length =
      (max 2 (min (([(0 : ℚ), 1]).length : ℤ)
        ⌈(1 : ℚ) * ((([(0 : ℚ), 1]).length : ℕ) : ℚ)⌉)).toNat :=
  (loess_window_size_amended [(0 : ℚ), 1] 0 1 (by simp)).2 (by norm_num)

/-- C5. Singular-system fallback: whenever the 2×2 weighted
normal-equations matrix of a LOESS query point is singular (`det = 0`,
the exact-arithmetic counterpart of `np.linalg.LinAlgError`), the fit
coefficients are the weighted mean `Σw·y / Σw` with slope 0 when the
weight sum is at least `1e-9`, and the unweighted window mean with slope 0
when it is below; the returned estimate is that intercept — a numeric
value is always produced. -/
theorem loess_singular_fallback (xs ys : List ℚ) (w : ℕ) (p : ℚ)
    (h : loessDet xs w p = 0) :
    loessAB xs ys w p =
      ((if loessSw xs w p < loessEps then listMean (loessYw xs ys w p)
        else loessSwy xs ys w p / loessSw xs w p), 0) ∧
    loessPoint xs ys w p =
      (if loessSw xs w p < loessEps then listMean (loessYw xs ys w p)
       else loessSwy xs ys w p / loessSw xs w p) := by
  have hcond : ¬ (loessDet xs w p ≠ 0) := by simp [h]
  have hab : loessAB xs ys w p =
      ((if loessSw xs w p < loessEps then listMean (loessYw xs ys w p)
        else loessSwy xs ys w p / loessSw xs w p), 0) := by
    unfold loessAB
    rw [if_neg hcond]
    split <;> rfl
  refine ⟨hab, ?_⟩
  unfold loessPoint
  rw [hab]
  ring

/-- C5 (witness): two observations at the same x-coordinate, queried away
from them — all tricube weights vanish, the normal matrix is singular, and
the estimate falls back to the unweighted window mean. -/
theorem loess_singular_fallback_witness :
    loessDet [(0 : ℚ), 0] 2 5 = 0 ∧
    loessAB [(0 : ℚ), 0] [1, 3] 2 5 =
      ((if loessSw [(0 : ℚ), 0] 2 5 < loessEps
        then listMean (loessYw [(0 : ℚ), 0] [1, 3] 2 5)
        else loessSwy [(0 : ℚ), 0] [1, 3] 2 5 / loessSw [(0 : ℚ), 0] 2 5), 0) ∧
    loessPoint [(0 : ℚ), 0] [1, 3] 2 5 =
      (if loessSw [(0 : ℚ), 0] 2 5 < loessEps
       then listMean (loessYw [(0 : ℚ), 0] [1, 3] 2 5)
       else loessSwy [(0 : ℚ), 0] [1, 3] 2 5 / loessSw [(0 : ℚ), 0] 2 5) := by
  have h : loessDet [(0 : ℚ), 0] 2 5 = 0 := by
    norm_num [loessDet, loessSw, loessSwx, loessSwx2, loessWeights, loessDw,
      loessXw, loessNearest, loessDists, argsort, tricubeWeights, loessEps,
      List.insertionSort, List.orderedInsert]
  exact ⟨h, loess_singular_fallback [(0 : ℚ), 0] [1, 3] 2 5 h⟩

/-! ### Constant-x LOESS -/

lemma getD_replicate_of_lt (n i : ℕ) (a : ℚ) (h : i < n) :
    (List.replicate n a).getD i 0 = a := by
  rw [List.getD_eq_getElem?_getD, List.getElem?_replicate, if_pos h, Option.getD_some]

lemma map_getD_range (l : List ℚ) :
    (List.range l.length).map (fun i => l.getD i 0) = l := by
  induction l with
  | nil => simp
  | cons hd tl ih =>
      rw [List.length_cons, List.range_succ_eq_map, List.map_cons, List.map_map]
      have hf : ((fun i => (hd :: tl).getD i 0) ∘ Nat.succ) = (fun i => tl.getD i 0) :=
        funext fun i => List.getD_cons_succ
      rw [List.getD_cons_zero, hf, ih]

lemma argsort_perm (l : List ℚ) : (argsort l).Perm (List.range l.length) := by
  simpa [argsort] using
    List.perm_insertionSort (fun i j => l.getD i 0 ≤ l.getD j 0) (List.range l.length)

lemma map_getD_perm (l : List ℚ) (si : List ℕ) (h : si.Perm (List.range l.length)) :
    (si.map (fun i => l.getD i 0)).Perm l := by
  have hm := h.map (fun i => l.getD i 0)
  rwa [map_getD_range] at hm

lemma map_getD_replicate (n : ℕ) (c : ℚ) (si : List ℕ)
    (h : si.Perm (List.range n)) :
    si.map (fun i => (List.replicate n c).getD i 0) = List.replicate n c := by
  rw [List.eq_replicate_iff]
  refine ⟨by rw [List.length_map, h.length_eq, List.length_range], ?_⟩
  intro v hv
  obtain ⟨i, hi, rfl⟩ := List.mem_map.mp hv
  have : i ∈ List.range n := h.mem_iff.mp hi
  exact getD_replicate_of_lt n i c (List.mem_range.mp this)

lemma foldr_max_replicate (q : ℚ) (hq : 0 ≤ q) :
    ∀ n : ℕ, (List.replicate (n + 1) q).foldr max 0 = q := by
  intro n
  induction n with
  | zero => simpa using max_eq_left hq
  | succ m ih =>
      rw [List.replicate_succ, List.foldr_cons, ih, max_self]

lemma zipWith_mul_one (l : List ℚ) :
    ∀ n : ℕ, l.length = n → List.zipWith (· * ·) (List.replicate n 1) l = l := by
  induction l with
  | nil => intro n _; simp
  | cons hd tl ih =>
      intro n hn
      cases n with
      | zero => simp at hn
      | succ m =>
          simp only [List.replicate_succ, List.zipWith_cons_cons, one_mul]
          rw [ih m (by simpa using hn)]

lemma zipWith_mul_zero_sum (l : List ℚ) :
    ∀ n : ℕ, (List.zipWith (· * ·) (List.replicate n (0 : ℚ)) l).sum = 0 := by
  induction l with
  | nil => intro n; simp
  | cons hd tl ih =>
      intro n
      cases n with
      | zero => simp
      | succ m =>
          simp only [List.replicate_succ, List.zipWith_cons_cons, zero_mul,
            List.sum_cons, zero_add]
          exact ih m

lemma sum_replicate_q (n : ℕ) (a : ℚ) : (List.replicate n a).sum = n * a := by
  rw [List.sum_replicate, nsmul_eq_mul]

lemma loessPoint_const (c p : ℚ) (n : ℕ) (hn : 1 ≤ n) (ysorted : List ℚ)
    (hy : ysorted.length = n) :
    loessPoint (List.replicate n c) ysorted n p = ysorted.sum / (n : ℚ) := by
  have hdists : loessDists (List.replicate n c) p = List.replicate n |c - p| := by
    simp [loessDists, List.map_replicate]
  have hdlen : (loessDists (List.replicate n c) p).length = n := by
    rw [hdists, List.length_replicate]
  have hperm : (loessNearest (List.replicate n c) n p).Perm (List.range n) := by
    have h1 : (argsort (loessDists (List.replicate n c) p)).Perm (List.range n) := by
      have h2 := argsort_perm (loessDists (List.replicate n c) p)
      rwa [hdlen] at h2
    have h2 : loessNearest (List.replicate n c) n p =
        argsort (loessDists (List.replicate n c) p) := by
      apply List.take_of_length_le
      rw [argsort_length, hdlen]
    rwa [h2]
  have hxw : loessXw (List.replicate n c) n p = List.replicate n c := by
    unfold loessXw
    exact map_getD_replicate n c _ hperm
  have hdw : loessDw (List.replicate n c) n p = List.replicate n |c - p| := by
    unfold loessDw
    rw [hdists]
    exact map_getD_replicate n |c - p| _ hperm
  have hyw_perm : (loessYw (List.replicate n c) ysorted n p).Perm ysorted := by
    unfold loessYw
    exact map_getD_perm ysorted _ (by rwa [hy])
  have hyw_sum : (loessYw (List.replicate n c) ysorted n p).sum = ysorted.sum :=
    hyw_perm.sum_eq
  have hyw_len : (loessYw (List.replicate n c) ysorted n p).length = n := by
    rw [hyw_perm.length_eq, hy]
  obtain ⟨m, rfl⟩ : ∃ m, n = m + 1 := ⟨n - 1, by omega⟩
  have habs : (0 : ℚ) ≤ |c - p| := abs_nonneg _
  by_cases hq : |c - p| < loessEps
  · -- degenerate window: uniform weights
    have hwts : loessWeights (List.replicate (m + 1) c) (m + 1) p =
        List.replicate (m + 1) 1 := by
      unfold loessWeights tricubeWeights
      rw [hdw, foldr_max_replicate _ habs, if_pos hq, List.length_replicate]
    have hsw : loessSw (List.replicate (m + 1) c) (m + 1) p = ((m + 1 : ℕ) : ℚ) := by
      unfold loessSw
      rw [hwts, sum_replicate_q, mul_one]
    have hswx : loessSwx (List.replicate (m + 1) c) (m + 1) p = ((m + 1 : ℕ) : ℚ) * c := by
      unfold loessSwx
      rw [hwts, hxw, List.zipWith_replicate, min_self, one_mul, sum_replicate_q]
    have hswx2 : loessSwx2 (List.replicate (m + 1) c) (m + 1) p =
        ((m + 1 : ℕ) : ℚ) * c ^ 2 := by
      unfold loessSwx2
      rw [hwts, hxw, List.map_replicate, List.zipWith_replicate, min_self, one_mul,
        sum_replicate_q]
    have hswy : loessSwy (List.replicate (m + 1) c) ysorted (m + 1) p = ysorted.sum := by
      unfold loessSwy
      rw [hwts, zipWith_mul_one _ _ hyw_len, hyw_sum]
    have hdet : loessDet (List.replicate (m + 1) c) (m + 1) p = 0 := by
      unfold loessDet
      rw [hsw, hswx, hswx2]
      ring
    have hswbig : ¬ (loessSw (List.replicate (m + 1) c) (m + 1) p < loessEps) := by
      rw [hsw]
      have h1 : (1 : ℚ) ≤ ((m + 1 : ℕ) : ℚ) := by exact_mod_cast hn
      rw [loessEps]
      intro hcon
      nlinarith
    have hab : loessAB (List.replicate (m + 1) c) ysorted (m + 1) p =
        (ysorted.sum / ((m + 1 : ℕ) : ℚ), 0) := by
      unfold loessAB
      rw [if_neg (by simp [hdet]), if_neg hswbig, hswy, hsw]
    unfold loessPoint
    rw [hab]
    ring
  · -- all window points at the maximal distance: all weights vanish
    have hqne : |c - p| ≠ 0 := by
      rw [loessEps] at hq
      intro h0
      rw [h0] at hq
      norm_num at hq
    have hwts : loessWeights (List.replicate (m + 1) c) (m + 1) p =
        List.replicate (m + 1) 0 := by
      unfold loessWeights tricubeWeights
      rw [hdw, foldr_max_replicate _ habs, if_neg hq, List.map_replicate,
        div_self hqne]
      norm_num
    have hsw : loessSw (List.replicate (m + 1) c) (m + 1) p = 0 := by
      unfold loessSw
      rw [hwts, sum_replicate_q, mul_zero]
    have hswx : loessSwx (List.replicate (m + 1) c) (m + 1) p = 0 := by
      unfold loessSwx
      rw [hwts]
      exact zipWith_mul_zero_sum _ _
    have hswx2 : loessSwx2 (List.replicate (m + 1) c) (m + 1) p = 0 := by
      unfold loessSwx2
      rw [hwts]
      exact zipWith_mul_zero_sum _ _
    have hdet : loessDet (List.replicate (m + 1) c) (m + 1) p = 0 := by
      unfold loessDet
      rw [hsw, hswx, hswx2]
      ring
    have hswsmall : loessSw (List.replicate (m + 1) c) (m + 1) p < loessEps := by
      rw [hsw, loessEps]
      norm_num
    have hab : loessAB (List.replicate (m + 1) c) ysorted (m + 1) p =
        (ysorted.sum / ((m + 1 : ℕ) : ℚ), 0) := by
      unfold loessAB
      rw [if_neg (by simp [hdet]), if_pos hswsmall]
      unfold listMean
      rw [hyw_sum, hyw_len]
    unfold loessPoint
    rw [hab]
    ring

/-- C6. Constant-x LOESS yields the mean: when every observation has the
same x-coordinate and the bandwidth makes the window span all `n`
observations, `loess_1d` returns the same value at every query point,
namely the (uniform-weight) mean of the y-values. -/
theorem loess_constant_x_mean (c b : ℚ) (y points : List ℚ) (hy : y ≠ [])
    (hb : numPointsInWindow y.length b = y.length) :
    loess_1d y (List.replicate y.length c) points b =
      points.map (fun _ => y.sum / (y.length : ℚ)) := by
  have hn : 0 < y.length := List.length_pos.mpr hy
  have hsi : (argsort (List.replicate y.length c)).Perm (List.range y.length) := by
    have h1 := argsort_perm (List.replicate y.length c)
    rwa [List.length_replicate] at h1
  have hxs : (argsort (List.replicate y.length c)).map
      (fun i => (List.replicate y.length c).getD i 0) = List.replicate y.length c :=
    map_getD_replicate y.length c _ hsi
  have hys_perm : ((argsort (List.replicate y.length c)).map
      (fun i => y.getD i 0)).Perm y := map_getD_perm y _ hsi
  have hys_len : ((argsort (List.replicate y.length c)).map
      (fun i => y.getD i 0)).length = y.length := by
    rw [hys_perm.length_eq]
  simp only [loess_1d, List.length_replicate]
  rw [if_neg (by omega), hb, hxs]
  apply List.map_congr_left
  intro p _
  rw [loessPoint_const c p y.length hn _ hys_len, hys_perm.sum_eq]

/-- C6 (witness): two observations at `x = 0`, full-span bandwidth — both
query points receive the mean `(1 + 3)/2 = 2`. -/
theorem loess_constant_x_mean_witness :
    loess_1d [1, 3] (List.replicate ([(1 : ℚ), 3]).length 0) [10, 20] 1 =
      [(10 : ℚ), 20].map (fun _ => ([(1 : ℚ), 3]).sum / (([(1 : ℚ), 3]).length : ℚ)) :=
  loess_constant_x_mean 0 1 [1, 3] [10, 20] (by simp)
    (by rw [numPointsInWindow_eq]; norm_num; decide)

/-! ### RBF kernel matrix -/

lemma rawSqDist_symm {m d : ℕ} (X : Fin m → Fin d → ℚ) (i j : Fin m) :
    rawSqDist X X i j = rawSqDist X X j i := by
  unfold rawSqDist dotProd
  have h : ∑ k, X i k * X j k = ∑ k, X j k * X i k :=
    Finset.sum_congr rfl (fun k _ => mul_comm _ _)
  rw [h]
  ring

lemma rawSqDist_diag {m d : ℕ} (X : Fin m → Fin d → ℚ) (i : Fin m) :
    rawSqDist X X i i = 0 := by
  unfold rawSqDist sqNorm dotProd
  have h : ∑ k, X i k * X i k = ∑ k, X i k ^ 2 :=
    Finset.sum_congr rfl (fun k _ => (pow_two (X i k)).symm)
  rw [h]
  ring

/-- C7. The Gram matrix `_rbf_kernel(X, X)` (matrix branch: squared
distances via the `‖x_i‖² + ‖x_j‖² − 2·x_i·x_j` expansion, negatives
clamped to 0) is symmetric, and every diagonal entry is exactly 1: the
self-distance is exactly 0, so the kernel value is `exp 0 = 1`. -/
theorem rbf_kernel_symm_diag_one (sigma : ℚ) (d m : ℕ) (X : Fin m → Fin d → ℚ) :
    (∀ i j, rbfKernelMatrix sigma X X i j = rbfKernelMatrix sigma X X j i) ∧
    (∀ i, rbfKernelMatrix sigma X X i i = 1) := by
  have hclamp_symm : ∀ i j, clampSqDist X X i j = clampSqDist X X j i := by
    intro i j
    unfold clampSqDist
    rw [rawSqDist_symm]
  have hclamp_diag : ∀ i, clampSqDist X X i i = 0 := by
    intro i
    unfold clampSqDist
    rw [rawSqDist_diag]
    norm_num
  constructor
  · intro i j
    unfold rbfKernelMatrix
    simp only [Matrix.of_apply]
    rw [hclamp_symm]
  · intro i
    unfold rbfKernelMatrix
    simp only [Matrix.of_apply]
    rw [hclamp_diag]
    simp [Real.exp_zero]

/-! ### Kernel ridge permutation invariance -/

lemma isMoorePenrose_unique {n : ℕ} {A B C : Matrix (Fin n) (Fin n) ℝ}
    (hB : IsMoorePenrose A B) (hC : IsMoorePenrose A C) : B = C := by
  obtain ⟨hB1, hB2, hB3, hB4⟩ := hB
  obtain ⟨hC1, hC2, hC3, hC4⟩ := hC
  have hAB : A * B = A * C := by
    calc A * B = (A * B).transpose := hB3.symm
      _ = B.transpose * A.transpose := Matrix.transpose_mul A B
      _ = B.transpose * (A * C * A).transpose := by rw [hC1]
      _ = B.transpose * (A.transpose * (A * C).transpose) := by
            rw [Matrix.transpose_mul (A * C) A]
      _ = B.transpose * (A.transpose * (A * C)) := by rw [hC3]
      _ = (B.transpose * A.transpose) * (A * C) := by rw [Matrix.mul_assoc]
      _ = (A * B).transpose * (A * C) := by rw [Matrix.transpose_mul A B]
      _ = (A * B) * (A * C) := by rw [hB3]
      _ = (A * B * A) * C := by rw [Matrix.mul_assoc (A * B) A C]
      _ = A * C := by rw [hB1]
  have hBA : B * A = C * A := by
    calc B * A = (B * A).transpose := hB4.symm
      _ = A.transpose * B.transpose := Matrix.transpose_mul B A
      _ = (A * (C * A)).transpose * B.transpose := by
            rw [← Matrix.mul_assoc A C A, hC1]
      _ = ((C * A).transpose * A.transpose) * B.transpose := by
            rw [Matrix.transpose_mul A (C * A)]
      _ = ((C * A) * A.transpose) * B.transpose := by rw [hC4]
      _ = (C * A) * (A.transpose * B.transpose) := by rw [Matrix.mul_assoc]
      _ = (C * A) * (B * A).transpose := by rw [Matrix.transpose_mul B A]
      _ = (C * A) * (B * A) := by rw [hB4]
      _ = C * (A * B * A) := by
            rw [Matrix.mul_assoc C A (B * A), ← Matrix.mul_assoc A B A]
      _ = C * A := by rw [hB1]
  calc B = B * A * B := hB2.symm
    _ = (C * A) * B := by rw [hBA]
    _ = C * (A * B) := Matrix.mul_assoc C A B
    _ = C * (A * C) := by rw [hAB]
    _ = C * A * C := (Matrix.mul_assoc C A C).symm
    _ = C := hC2

lemma submatrix_mul_perm {n : ℕ} (e : Equiv.Perm (Fin n))
    (M N : Matrix (Fin n) (Fin n) ℝ) :
    M.submatrix e e * N.submatrix e e = (M * N).submatrix e e :=
  Matrix.submatrix_mul_equiv M N e e e

lemma isMoorePenrose_submatrix {n : ℕ} (e : Equiv.Perm (Fin n))
    {A B : Matrix (Fin n) (Fin n) ℝ} (h : IsMoorePenrose A B) :
    IsMoorePenrose (A.submatrix e e) (B.submatrix e e) := by
  obtain ⟨h1, h2, h3, h4⟩ := h
  refine ⟨?_, ?_, ?_, ?_⟩
  · rw [submatrix_mul_perm, submatrix_mul_perm, h1]
  · rw [submatrix_mul_perm, submatrix_mul_perm, h2]
  · rw [submatrix_mul_perm, Matrix.transpose_submatrix, h3]
  · rw [submatrix_mul_perm, Matrix.transpose_submatrix, h4]

lemma submatrix_symm_cancel {n : ℕ} (e : Equiv.Perm (Fin n))
    (A : Matrix (Fin n) (Fin n) ℝ) :
    (A.submatrix e e).submatrix e.symm e.symm = A := by
  rw [Matrix.submatrix_submatrix]
  have h : (⇑e ∘ ⇑e.symm) = id := funext fun i => e.apply_symm_apply i
  rw [h, Matrix.submatrix_id_id]

lemma pinvR_submatrix {n : ℕ} (e : Equiv.Perm (Fin n))
    (A : Matrix (Fin n) (Fin n) ℝ) :
    pinvR (A.submatrix e e) = (pinvR A).submatrix e e := by
  unfold pinvR
  by_cases h : ∃ B, IsMoorePenrose A B
  · have h' : ∃ B, IsMoorePenrose (A.submatrix e e) B :=
      ⟨(h.choose).submatrix e e, isMoorePenrose_submatrix e h.choose_spec⟩
    rw [dif_pos h, dif_pos h']
    exact isMoorePenrose_unique h'.choose_spec (isMoorePenrose_submatrix e h.choose_spec)
  · have h' : ¬ ∃ B, IsMoorePenrose (A.submatrix e e) B := by
      rintro ⟨B', hB'⟩
      apply h
      refine ⟨B'.submatrix e.symm e.symm, ?_⟩
      have hh := isMoorePenrose_submatrix e.symm hB'
      rwa [submatrix_symm_cancel] at hh
    rw [dif_neg h, dif_neg h']
    simp

lemma inv_submatrix_perm {n : ℕ} (e : Equiv.Perm (Fin n))
    (A : Matrix (Fin n) (Fin n) ℝ) (h : A.det ≠ 0) :
    (A.submatrix e e)⁻¹ = A⁻¹.submatrix e e := by
  apply Matrix.inv_eq_right_inv
  rw [submatrix_mul_perm, Matrix.mul_nonsing_inv A (isUnit_iff_ne_zero.mpr h),
    Matrix.submatrix_one_equiv]

lemma rbfKernelMatrix_perm_both {n d : ℕ} (sigma : ℚ) (X : Fin n → Fin d → ℚ)
    (e : Equiv.Perm (Fin n)) :
    rbfKernelMatrix sigma (fun i => X (e i)) (fun i => X (e i)) =
      (rbfKernelMatrix sigma X X).submatrix e e := rfl

lemma rbfKernelMatrix_perm_right {mt n d : ℕ} (sigma : ℚ)
    (Xte : Fin mt → Fin d → ℚ) (X : Fin n → Fin d → ℚ) (e : Equiv.Perm (Fin n)) :
    rbfKernelMatrix sigma Xte (fun i => X (e i)) =
      (rbfKernelMatrix sigma Xte X).submatrix id e := rfl

lemma reg_matrix_perm {n d : ℕ} (sigma lam : ℚ) (X : Fin n → Fin d → ℚ)
    (e : Equiv.Perm (Fin n)) :
    rbfKernelMatrix sigma (fun i => X (e i)) (fun i => X (e i)) +
        (lam : ℝ) • (1 : Matrix (Fin n) (Fin n) ℝ) =
      (rbfKernelMatrix sigma X X +
        (lam : ℝ) • (1 : Matrix (Fin n) (Fin n) ℝ)).submatrix e e := by
  rw [rbfKernelMatrix_perm_both]
  ext i j
  simp only [Matrix.add_apply, Matrix.submatrix_apply, Matrix.smul_apply,
    Matrix.one_apply, smul_eq_mul]
  by_cases hij : i = j
  · rw [if_pos hij, if_pos (by rw [hij])]
  · rw [if_neg hij, if_neg (fun hc => hij (e.injective hc))]

lemma comp_symm_cancel {n : ℕ} (e : Equiv.Perm (Fin n)) (v : Fin n → ℝ) :
    ((fun i => v (e i)) ∘ ⇑e.symm) = v := by
  funext i
  simp

lemma krrPredictVec_perm {n d mt : ℕ} (sigma lam : ℚ) (X : Fin n → Fin d → ℚ)
    (y : Fin n → ℚ) (e : Equiv.Perm (Fin n)) (Xte : Fin mt → Fin d → ℚ) :
    krrPredictVec sigma lam (fun i => X (e i)) (fun i => y (e i)) Xte =
      krrPredictVec sigma lam X y Xte := by
  unfold krrPredictVec
  by_cases hn : n = 0
  · rw [if_pos hn, if_pos hn]
  · rw [if_neg hn, if_neg hn]
    simp only [krrAlpha]
    rw [reg_matrix_perm, rbfKernelMatrix_perm_right, Matrix.det_submatrix_equiv_self]
    by_cases hdet :
        (rbfKernelMatrix sigma X X +
          (lam : ℝ) • (1 : Matrix (Fin n) (Fin n) ℝ)).det ≠ 0
    · rw [if_pos hdet, if_pos hdet, inv_submatrix_perm e _ hdet]
      have halpha :
          ((rbfKernelMatrix sigma X X +
            (lam : ℝ) • (1 : Matrix (Fin n) (Fin n) ℝ))⁻¹.submatrix ⇑e ⇑e).mulVec
              (fun i => ((y (e i) : ℚ) : ℝ)) =
            ((rbfKernelMatrix sigma X X +
              (lam : ℝ) • (1 : Matrix (Fin n) (Fin n) ℝ))⁻¹.mulVec
                (fun i => ((y i : ℚ) : ℝ))) ∘ ⇑e := by
        rw [Matrix.submatrix_mulVec_equiv, comp_symm_cancel e (fun i => ((y i : ℚ) : ℝ))]
      rw [halpha, Matrix.submatrix_mulVec_equiv, Function.comp_assoc,
        Equiv.self_comp_symm, Function.comp_id, Function.comp_id]
    · rw [if_neg hdet, if_neg hdet, pinvR_submatrix]
      have halpha :
          ((pinvR (rbfKernelMatrix sigma X X +
            (lam : ℝ) • (1 : Matrix (Fin n) (Fin n) ℝ))).submatrix ⇑e ⇑e).mulVec
              (fun i => ((y (e i) : ℚ) : ℝ)) =
            ((pinvR (rbfKernelMatrix sigma X X +
              (lam : ℝ) • (1 : Matrix (Fin n) (Fin n) ℝ))).mulVec
                (fun i => ((y i : ℚ) : ℝ))) ∘ ⇑e := by
        rw [Matrix.submatrix_mulVec_equiv, comp_symm_cancel e (fun i => ((y i : ℚ) : ℝ))]
      rw [halpha, Matrix.submatrix_mulVec_equiv, Function.comp_assoc,
        Equiv.self_comp_symm, Function.comp_id, Function.comp_id]

/-- C8. Training-row permutation invariance: permuting the rows of
`X_train` and `y_train` together (by any permutation) before `fit` leaves
every `predict` output unchanged, in exact arithmetic — conjugating the
regularized Gram matrix by the permutation permutes `alpha` and the
columns of `K_test_train` compatibly, on the solve path and on the
pseudo-inverse fallback path alike. -/
theorem krr_row_permutation_invariance {d : ℕ} (self : SimpleRBFKernelRegression d)
    (n : ℕ) (X : Fin n → Fin d → ℚ) (y : Fin n → ℚ) (e : Equiv.Perm (Fin n))
    {mt : ℕ} (Xte : Fin mt → Fin d → ℚ) :
    (SimpleRBFKernelRegression.predict
        (self.fit n (fun i => X (e i)) (fun i => y (e i))) Xte) =
      (SimpleRBFKernelRegression.predict (self.fit n X y) Xte) := by
  simp only [SimpleRBFKernelRegression.predict, SimpleRBFKernelRegression.fit]
  rw [krrPredictVec_perm]

/-! ### Kernel ridge lifecycle -/

lemma runFits_cons {d : ℕ} (self : SimpleRBFKernelRegression d)
    (c : KRRFitCall d) (rest : List (KRRFitCall d)) :
    self.runFits (c :: rest) = (self.fit c.1 c.2.1 c.2.2).runFits rest := rfl

lemma runFits_training_isSome {d : ℕ} :
    ∀ (calls : List (KRRFitCall d)) (self : SimpleRBFKernelRegression d),
      calls ≠ [] → ((self.runFits calls).training).isSome := by
  intro calls
  induction calls with
  | nil => intro self h; exact absurd rfl h
  | cons c rest ih =>
      intro self _
      rw [runFits_cons]
      cases rest with
      | nil => rfl
      | cons c2 r2 => exact ih _ (by simp)

/-- C9. Predict lifecycle: after any sequence of `fit` calls on a freshly
constructed model, `predict` returns the model-not-trained error exactly
when the sequence is empty (`fit` was never called); and after a `fit`
with an empty training set (zero rows), `predict` succeeds and returns the
all-zero vector indexed by the test rows. -/
theorem krr_predict_lifecycle {d : ℕ} (sigma lam : ℚ) {mt : ℕ}
    (Xte : Fin mt → Fin d → ℚ) :
    (∀ calls : List (KRRFitCall d),
      ((SimpleRBFKernelRegression.make d sigma lam).runFits calls).predict Xte =
          Except.error KRRError.notTrained ↔ calls = []) ∧
    (∀ (self : SimpleRBFKernelRegression d) (X0 : Fin 0 → Fin d → ℚ)
        (y0 : Fin 0 → ℚ),
      (self.fit 0 X0 y0).predict Xte = Except.ok (fun _ => (0 : ℝ))) := by
  constructor
  · intro calls
    constructor
    · intro h
      by_contra hne
      have hsome := runFits_training_isSome calls
        (SimpleRBFKernelRegression.make d sigma lam) hne
      obtain ⟨t, htr⟩ := Option.isSome_iff_exists.mp hsome
      rw [SimpleRBFKernelRegression.predict, htr] at h
      exact Except.noConfusion h
    · rintro rfl
      rfl
  · intro self X0 y0
    rw [SimpleRBFKernelRegression.predict]
    simp only [SimpleRBFKernelRegression.fit]
    rw [krrPredictVec]
    rw [if_pos rfl]

/-! ### STL configuration freezing -/

lemma SimpleSTL.fit_config (r : SimpleSTL) (data2 : List ℚ) :
    (r.fit data2).seasonal_period = r.seasonal_period ∧
    (r.fit data2).n_inner_iterations = r.n_inner_iterations ∧
    (r.fit data2).n_outer_iterations = r.n_outer_iterations := by
  simp only [SimpleSTL.fit]
  split
  · exact ⟨rfl, rfl, rfl⟩
  · exact ⟨rfl, rfl, rfl⟩

lemma SimpleSTL.fit_preserves_spans (r : SimpleSTL) (data2 : List ℚ)
    (h1 : ∃ v, r.seasonal_smoother_span = some v)
    (h2 : ∃ v, r.n_trend_bandwidth = some v)
    (h3 : ∃ v, r.n_lowpass_bandwidth = some v)
    (h4 : ∃ v, r.trend_smoother_span = some v)
    (h5 : ∃ v, r.lowpass_smoother_span = some v) :
    (r.fit data2).seasonal_smoother_span = r.seasonal_smoother_span ∧
    (r.fit data2).n_trend_bandwidth = r.n_trend_bandwidth ∧
    (r.fit data2).n_lowpass_bandwidth = r.n_lowpass_bandwidth ∧
    (r.fit data2).trend_smoother_span = r.trend_smoother_span ∧
    (r.fit data2).lowpass_smoother_span = r.lowpass_smoother_span := by
  obtain ⟨v1, e1⟩ := h1
  obtain ⟨v2, e2⟩ := h2
  obtain ⟨v3, e3⟩ := h3
  obtain ⟨v4, e4⟩ := h4
  obtain ⟨v5, e5⟩ := h5
  simp only [SimpleSTL.fit]
  split
  · exact ⟨rfl, rfl, rfl, rfl, rfl⟩
  · refine ⟨?_, ?_, ?_, ?_, ?_⟩ <;>
      simp [SimpleSTL.effSeasonalSpan, SimpleSTL.effTrendBandwidth,
        SimpleSTL.effLowpassBandwidth, SimpleSTL.effTrendSpan,
        SimpleSTL.effLowpassSpan, e1, e2, e3, e4, e5]

/-- C10 (counterexample). The claim that `fit` leaves every non-span
configuration field unchanged is false: on a default-constructed instance
(span fields `None`) the first `fit` also overwrites `n_trend_bandwidth`
(from `None` to its computed default). -/
theorem stl_default_span_freeze_claim_false :
    ¬ ((SimpleSTL.fit
        { seasonal_period := 1, n_inner_iterations := 0, n_outer_iterations := 0 }
        [(5 : ℚ)]).n_trend_bandwidth =
      ({ seasonal_period := 1, n_inner_iterations := 0,
          n_outer_iterations := 0 } : SimpleSTL).n_trend_bandwidth) := by
  simp only [SimpleSTL.fit]
  rw [if_neg (by decide)]
  simp

/-- C10 (amended). For a `SimpleSTL` whose three smoother-span fields are
`None`, the first `fit` on a nonempty series of length `n` permanently
stores `seasonal_smoother_span = 7/n`, the (possibly defaulted) trend and
low-pass bandwidths, and the two derived spans `bandwidth / n`;
`seasonal_period` and the iteration counts are unchanged; and every
subsequent `fit` — on a series of any length, empty or not — reuses all
five stored smoothing fields and never recomputes them, leaving the rest
of the configuration unchanged as well. -/
theorem stl_default_span_freeze_amended (cfg : SimpleSTL) (data : List ℚ)
    (hs : cfg.seasonal_smoother_span = none)
    (ht : cfg.trend_smoother_span = none)
    (hl : cfg.lowpass_smoother_span = none)
    (hd : data ≠ []) :
    ((cfg.fit data).seasonal_smoother_span = some (7 / (data.length : ℚ)) ∧
     (cfg.fit data).n_trend_bandwidth = some cfg.effTrendBandwidth ∧
     (cfg.fit data).n_lowpass_bandwidth = some cfg.effLowpassBandwidth ∧
     (cfg.fit data).trend_smoother_span =
       some ((cfg.effTrendBandwidth : ℚ) / (data.length : ℚ)) ∧
     (cfg.fit data).lowpass_smoother_span =
       some ((cfg.effLowpassBandwidth : ℚ) / (data.length : ℚ))) ∧
    ((cfg.fit data).seasonal_period = cfg.seasonal_period ∧
     (cfg.fit data).n_inner_iterations = cfg.n_inner_iterations ∧
     (cfg.fit data).n_outer_iterations = cfg.n_outer_iterations) ∧
    (∀ data2 : List ℚ,
      ((cfg.fit data).fit data2).seasonal_smoother_span =
          (cfg.fit data).seasonal_smoother_span ∧
      ((cfg.fit data).fit data2).n_trend_bandwidth =
          (cfg.fit data).n_trend_bandwidth ∧
      ((cfg.fit data).fit data2).n_lowpass_bandwidth =
          (cfg.fit data).n_lowpass_bandwidth ∧
      ((cfg.fit data).fit data2).trend_smoother_span =
          (cfg.fit data).trend_smoother_span ∧
      ((cfg.fit data).fit data2).lowpass_smoother_span =
          (cfg.fit data).lowpass_smoother_span ∧
      ((cfg.fit data).fit data2).seasonal_period =
          (cfg.fit data).seasonal_period ∧
      ((cfg.fit data).fit data2).n_inner_iterations =
          (cfg.fit data).n_inner_iterations ∧
      ((cfg.fit data).fit data2).n_outer_iterations =
          (cfg.fit data).n_outer_iterations) := by
  have hn : ¬ data.length = 0 := by
    intro h0
    exact hd (List.length_eq_zero.mp h0)
  have hfirst :
      (cfg.fit data).seasonal_smoother_span = some (7 / (data.length : ℚ)) ∧
      (cfg.fit data).n_trend_bandwidth = some cfg.effTrendBandwidth ∧
      (cfg.fit data).n_lowpass_bandwidth = some cfg.effLowpassBandwidth ∧
      (cfg.fit data).trend_smoother_span =
        some ((cfg.effTrendBandwidth : ℚ) / (data.length : ℚ)) ∧
      (cfg.fit data).lowpass_smoother_span =
        some ((cfg.effLowpassBandwidth : ℚ) / (data.length : ℚ)) := by
    simp only [SimpleSTL.fit]
    rw [if_neg hn]
    refine ⟨?_, rfl, rfl, ?_, ?_⟩ <;>
      simp [SimpleSTL.effSeasonalSpan, SimpleSTL.effTrendSpan,
        SimpleSTL.effLowpassSpan, hs, ht, hl]
  obtain ⟨f1, f2, f3, f4, f5⟩ := hfirst
  refine ⟨⟨f1, f2, f3, f4, f5⟩, SimpleSTL.fit_config cfg data, ?_⟩
  intro data2
  obtain ⟨p1, p2, p3, p4, p5⟩ := SimpleSTL.fit_preserves_spans (cfg.fit data) data2
    ⟨_, f1⟩ ⟨_, f2⟩ ⟨_, f3⟩ ⟨_, f4⟩ ⟨_, f5⟩
  exact ⟨p1, p2, p3, p4, p5, SimpleSTL.fit_config (cfg.fit data) data2⟩

/-- C10 (witness for the amended claim): a default-constructed period-1
instance, first fitted on `[5]` (length 1), then re-fitted on `[3, 4]`. -/
theorem stl_default_span_freeze_witness :
    ((SimpleSTL.fit
        { seasonal_period := 1, n_inner_iterations := 0, n_outer_iterations := 0 }
        [(5 : ℚ)]).seasonal_smoother_span =
          some (7 / (([(5 : ℚ)]).length : ℚ)) ∧
     (SimpleSTL.fit
        { seasonal_period := 1, n_inner_iterations := 0, n_outer_iterations := 0 }
        [(5 : ℚ)]).n_trend_bandwidth =
          some ({ seasonal_period := 1, n_inner_iterations := 0, n_outer_iterations := 0 } : SimpleSTL).effTrendBandwidth ∧
     (SimpleSTL.fit
        { seasonal_period := 1, n_inner_iterations := 0, n_outer_iterations := 0 }
        [(5 : ℚ)]).n_lowpass_bandwidth =
          some ({ seasonal_period := 1, n_inner_iterations := 0, n_outer_iterations := 0 } : SimpleSTL).effLowpassBandwidth ∧
     (SimpleSTL.fit
        { seasonal_period := 1, n_inner_iterations := 0, n_outer_iterations := 0 }
        [(5 : ℚ)]).trend_smoother_span =
          some ((({ seasonal_period := 1, n_inner_iterations := 0, n_outer_iterations := 0 } : SimpleSTL).effTrendBandwidth : ℚ) /
              (([(5 : ℚ)]).length : ℚ)) ∧
     (SimpleSTL.fit
        { seasonal_period := 1, n_inner_iterations := 0, n_outer_iterations := 0 }
        [(5 : ℚ)]).lowpass_smoother_span =
          some ((({ seasonal_period := 1, n_inner_iterations := 0, n_outer_iterations := 0 } : SimpleSTL).effLowpassBandwidth : ℚ) /
              (([(5 : ℚ)]).length : ℚ))) ∧
    ((SimpleSTL.fit
        (SimpleSTL.fit
          { seasonal_period := 1, n_inner_iterations := 0, n_outer_iterations := 0 }
          [(5 : ℚ)]) [(3 : ℚ), 4]).seasonal_smoother_span =
      (SimpleSTL.fit
        { seasonal_period := 1, n_inner_iterations := 0, n_outer_iterations := 0 }
        [(5 : ℚ)]).seasonal_smoother_span) :=
  ⟨(stl_default_span_freeze_amended
      { seasonal_period := 1, n_inner_iterations := 0, n_outer_iterations := 0 }
      [(5 : ℚ)] rfl rfl rfl (by simp)).1,
   ((stl_default_span_freeze_amended
      { seasonal_period := 1, n_inner_iterations := 0, n_outer_iterations := 0 }
      [(5 : ℚ)] rfl rfl rfl (by simp)).2.2 [(3 : ℚ), 4]).1⟩
